import Mathlib

/-!
Verification development for the Enginuity AI backend
(`app/routers/chat.py` and `app/services/vector.py`).

Python strings are modelled as Lean `String` where only textual content
matters, and as `List Char` where character counts matter (the snippet
logic of `vector.py`); Python floats are modelled as exact rationals `ℚ`;
Python `None` / absent dict keys are modelled with `Option`; external
collaborators (the OpenAI client, the Chroma vector store) are modelled as
explicit parameters (a generation oracle, a query oracle, an explicit
store value threaded through `upsert`).
-/

namespace Enginuity

/-! ## Chat message data model (`app/models/schemas.py`)

`ChatMessage.content` is `Any` in the source; the two shapes the code
handles are a plain string and a structured dict carrying a `text` field
(possibly missing).  `Content.obj none` models a dict without a `text`
key, for which `content.get("text", "")` yields `""`. -/

inductive Content where
  | str (s : String)
  | obj (text : Option String)
deriving DecidableEq, Repr

structure ChatMessage where
  role : String
  content : Content
deriving DecidableEq, Repr

/-- Python `str.strip()` (no argument): drop leading and trailing
whitespace.  Defined directly on the character list so that it reduces
definitionally (Lean's `String.trim` is opaque to the kernel). -/
def pyStrip (s : String) : String :=
  ⟨((s.data.dropWhile Char.isWhitespace).reverse.dropWhile Char.isWhitespace).reverse⟩

/-- The content-to-string reduction used by both `_last_user_message` and
`_llm_answer` in `chat.py`: a structured content contributes its `text`
field (defaulting to the empty string), a plain string is used as is. -/
def extract_content : Content → String
  | .str s => s
  | .obj t => t.getD ""

/-- Model of `_last_user_message` (`chat.py` lines 58-68): scan the messages from
the most recent backwards, return the content of the first message whose
role is `"user"`, reduced by `extract_content`; `""` if there is none. -/
def last_user_message (messages : List ChatMessage) : String :=
  match messages.reverse.find? (fun m => m.role == "user") with
  | some m => extract_content m.content
  | none => ""

/-! ## Grounded answer generator (`chat.py` `_llm_answer`) -/

/-- The module-level `SYSTEM_PROMPT` of `chat.py` (the triple-quoted
string after `.strip()`). -/
def SYSTEM_PROMPT : String :=
  "You are Enginuity AI — a lecture-grounded teaching assistant.\nUse ONLY the information provided in the CONTEXT FROM NOTES.\n\nWhen answering:\n- If the context clearly or partially answers the question, say what the notes DO tell us.\n- If an aspect of the question is missing (e.g., the question asks \"when\" but the notes only say WHAT happened), then answer like:\n  \"The notes mention that you did X, but they do not specify when.\"\n- Only use the exact sentence \"I could not find this information in the lecture notes.\" when there is no clearly relevant information at all.\n\nAlways be concise, factual, and avoid adding outside information that is not in the context."

/-- The fixed apology string of the fallback branch (`chat.py` line 103). -/
def APOLOGY : String :=
  "I could not find any relevant information in the lecture notes."

/-- The fixed preamble of the non-empty fallback branch
(`chat.py` lines 104-107). -/
def FALLBACK_PREAMBLE : String :=
  "Model access is not configured. But based on your notes:\n\n"

/-- One entry of the OpenAI `messages` payload: a `(role, content)` pair. -/
abbrev PayloadMsg := String × String

/-- The normalisation applied to each history message in `_llm_answer`
(lines 110-117): keep the role, reduce the content to a string. -/
def normalize_msg (m : ChatMessage) : PayloadMsg :=
  (m.role, extract_content m.content)

/-- The `messages_payload` built by `_llm_answer` when the OpenAI client is
configured (`chat.py` lines 109-134): the system policy, a system message
embedding the context block, the last 8 history messages (Python
`history[-8:]`, i.e. `drop (length - 8)`) each normalised, and a final
user message restating the question. -/
def llm_request (question context_block : String) (history : List ChatMessage) :
    List PayloadMsg :=
  [("system", SYSTEM_PROMPT),
   ("system", "CONTEXT FROM NOTES:\n\n" ++ context_block)]
  ++ (history.drop (history.length - 8)).map normalize_msg
  ++ [("user", "Using ONLY the lecture context above, answer this question:\n\n" ++ question)]

/-- Model of `_llm_answer` (`chat.py` lines 93-146).  The OpenAI client is modelled
by a flag `configured` (is `_openai` non-`None`?) and a generation oracle
`gen` mapping the composed payload and temperature to the model's reply;
the source strips the reply (`.strip()`, modelled by `String.trim`).  When
the client is not configured the deterministic fallback runs. -/
def llm_answer (configured : Bool) (gen : List PayloadMsg → ℚ → String)
    (question context_block : String) (history : List ChatMessage)
    (temperature : ℚ) : String :=
  if !configured then
    if context_block = "" then APOLOGY
    else FALLBACK_PREAMBLE ++ context_block
  else
    pyStrip (gen (llm_request question context_block history) temperature)

/-! ## Vector service (`app/services/vector.py`)

The Chroma collection is external: `index_sections` is modelled by
threading the collection state (a list of entries with upsert-by-id
semantics, the store contract the code relies on) explicitly, and
`search` by post-processing an explicit query result.  Documents are
`List Char` so that Python's character-counting slice `doc[:280]` is
faithful. -/

/-- A section as consumed by `index_sections` (`vector.py` lines 31-43):
only the `id` and `content` keys are read. -/
structure Section where
  id : String
  content : String
deriving DecidableEq, Repr

/-- The metadata dict written by `index_sections`:
`{"title": lecture_title, "section_id": s["id"]}`. -/
structure SectionMeta where
  title : String
  section_id : String
deriving DecidableEq, Repr

/-- One persisted store entry `(id, document, metadata)`; the embedding
vector is a pure function of `document` and is left out of the model. -/
structure IndexEntry where
  id : String
  document : String
  metadata : SectionMeta
deriving DecidableEq, Repr

/-- The entry `index_sections` builds for one section (`vector.py` lines
39-41): `id = s["id"]`, `document = s["content"]`,
`metadata = {"title": lecture_title, "section_id": s["id"]}`. -/
def section_entry (lecture_title : String) (s : Section) : IndexEntry :=
  ⟨s.id, s.content, ⟨lecture_title, s.id⟩⟩

/-- Upsert of a single entry keyed by `id`: replace the entry with that id
when present, append otherwise.  This is the store collaborator's
documented `collection.upsert` contract for one id. -/
def upsertOne (store : List IndexEntry) (e : IndexEntry) : List IndexEntry :=
  if store.any (fun x => x.id == e.id)
  then store.map (fun x => if x.id == e.id then e else x)
  else store ++ [e]

/-- Batch upsert (`col.upsert(ids=…, documents=…, metadatas=…)`). -/
def upsertMany (store : List IndexEntry) (es : List IndexEntry) : List IndexEntry :=
  es.foldl upsertOne store

/-- Model of `index_sections` (`vector.py` lines 31-43): upsert one entry per
section into the collection. -/
def index_sections (lecture_title : String) (sections : List Section)
    (store : List IndexEntry) : List IndexEntry :=
  upsertMany store (sections.map (section_entry lecture_title))

/-- The metadata dict of one query match as `search` reads it:
`meta.get("section_id")` and `meta.get("title", "Notes")`; `none` models
an absent key. -/
structure VMeta where
  title : Option String
  section_id : Option String
deriving DecidableEq, Repr

/-- The normalized hit dict `search` returns (`vector.py` lines 73-82). -/
structure Hit where
  title : String
  snippet : List Char
  document : List Char
  score : Option ℚ
  section_id : Option String
  source : String
deriving DecidableEq, Repr

/-- The parts of `col.query(...)` that `search` reads, already projected
to the first (only) query: `documents = none` models a falsy/absent
`res["documents"]` (the early-return guard), `distances = none` models a
falsy/absent `res["distances"]` (then `[None] * len(docs)` is used). -/
structure QueryResult where
  documents : Option (List (List Char))
  metadatas : List VMeta
  distances : Option (List (Option ℚ))

/-- Python's 3-ary `zip`: truncates to the shortest input. -/
def zip3 {α β γ : Type} : List α → List β → List γ → List (α × β × γ)
  | a :: as, b :: bs, c :: cs => (a, b, c) :: zip3 as bs cs
  | _, _, _ => []

/-- The snippet rule `doc[:280] + ("…" if len(doc) > 280 else "")`
(`vector.py` line 72). -/
def mkSnippet (doc : List Char) : List Char :=
  doc.take 280 ++ (if 280 < doc.length then ['…'] else [])

/-- The hit built from one `(doc, meta, dist)` triple
(`vector.py` lines 71-82): `score = 1.0 - float(dist)` when a distance is
present, `None` otherwise. -/
def mkHit (doc : List Char) (meta : VMeta) (dist : Option ℚ) : Hit :=
  { title := "Match"
    snippet := mkSnippet doc
    document := doc
    score := dist.map (fun d => 1 - d)
    section_id := meta.section_id
    source := meta.title.getD "Notes" }

/-- The `zip(docs, metas, dists)` iteration of `search` (`vector.py`
lines 63-71), including the `[None] * len(docs)` default when the store
reports no distances. -/
def queryTriples (res : QueryResult) : List (List Char × VMeta × Option ℚ) :=
  match res.documents with
  | none => []
  | some docs =>
    let dists := match res.distances with
      | some ds => ds
      | none => List.replicate docs.length none
    zip3 docs res.metadatas dists

/-- The Vector Store collaborator's ordering contract (spec §2: matches
come back "ordered by similarity"): pairwise non-decreasing distances,
vacuous where the store reports no distance. -/
def distLeB (a b : Option ℚ) : Bool :=
  match a, b with
  | some x, some y => decide (x ≤ y)
  | _, _ => true

/-- The result-shaping loop of `search`: one hit per zipped triple, in
store order (no re-sorting). -/
def processQuery (res : QueryResult) : List Hit :=
  (queryTriples res).map (fun t => mkHit t.1 t.2.1 t.2.2)

/-- Model of `search` (`vector.py` lines 46-84): query the store (the external
`col.query`, modelled by `queryFn`) and normalize the result. -/
def search (queryFn : String → ℤ → QueryResult) (q : String) (top_k : ℤ) :
    List Hit :=
  processQuery (queryFn q top_k)

/-! ## Context assembler (`chat.py` `_build_context_block`)

`_build_context_block` receives a list of plain dicts; a field modelled
as `none` is an absent dict key, so that `h.get(k, default)` becomes
`Option.getD`.  The `title` key of a hit is never read and is omitted. -/

structure CtxHit where
  section_id : Option String
  source : Option String
  score : Option ℚ
  document : Option String
  snippet : Option String
deriving DecidableEq, Repr

/-- Python string truthiness fallback `a or b`: the left string wins
unless it is absent or empty. -/
def pyOrStr (a : Option String) (b : String) : String :=
  match a with
  | some s => if s = "" then b else s
  | none => b

/-- Round-half-even to an integer, the rounding Python's `format(x, ".2f")
` applies (on our exact-rational model of the float). -/
def roundHalfEven (q : ℚ) : ℤ :=
  let f := ⌊q⌋
  let r := q - f
  if r < 1/2 then f
  else if 1/2 < r then f + 1
  else if f % 2 = 0 then f else f + 1

/-- The Python f-string conversion `f"{score:.2f}"`: two decimal places,
round-half-even. -/
def fmt2 (x : ℚ) : String :=
  let n := roundHalfEven (x * 100)
  let sign := if n < 0 then "-" else ""
  let m := n.natAbs
  let frac := m % 100
  sign ++ toString (m / 100) ++ "."
    ++ (if frac < 10 then "0" ++ toString frac else toString frac)

/-- The per-hit block of `_build_context_block` (`chat.py` lines 77-88):
header `[<section_id or match-idx> | <source or Notes>[ | score=..]]`,
newline, body (`document or snippet or ""` under Python truthiness),
newline.  `idx` is the 1-based `enumerate(hits, 1)` index. -/
def context_part (idx : Nat) (h : CtxHit) : String :=
  let sec := h.section_id.getD ("match-" ++ toString idx)
  let source := h.source.getD "Notes"
  let header := "[" ++ sec ++ " | " ++ source
    ++ (match h.score with
        | some sc => " | score=" ++ fmt2 sc
        | none => "") ++ "]"
  let body := pyOrStr h.document (pyOrStr h.snippet "")
  header ++ "\n" ++ body ++ "\n"

/-- Model of `_build_context_block` (`chat.py` lines 71-90): empty list gives the
empty string, otherwise the per-hit blocks joined by `"\n\n"`. -/
def build_context (hits : List CtxHit) : String :=
  if hits.isEmpty then ""
  else String.intercalate "\n\n" ((List.enumFrom 1 hits).map (fun p => context_part p.1 p.2))

/-! ## Chat orchestrator (`chat.py` `chat`) -/

/-- The `top_k` value of a `ChatRequest` as it reaches the orchestrator:
an integer, `None`, or a garbage value on which `int(...)` raises. -/
inductive TopKInput where
  | intVal (n : ℤ)
  | noneVal
  | garbage
deriving DecidableEq, Repr

/-- Model of `chat.py` lines 162-166: `top_k = max(1, min(int(req.top_k or 5), 15))`
inside `try`, with `except: top_k = 5`.  `req.top_k or 5` makes both
`None` and `0` (falsy) become `5`; a garbage value raises in `int` and
takes the `except` branch. -/
def effective_top_k : TopKInput → ℤ
  | .intVal n => max 1 (min (if n = 0 then 5 else n) 15)
  | .noneVal => max 1 (min 5 15)
  | .garbage => 5

/-- Model of `chat.py` line 176: `temperature=float(req.temperature or 0.2)` —
`None` and the falsy `0.0` both become `0.2`. -/
def effective_temperature : Option ℚ → ℚ
  | none => 0.2
  | some x => if x = 0 then 0.2 else x

structure ChatRequest where
  messages : List ChatMessage
  top_k : TopKInput
  temperature : Option ℚ

structure ChatResponse where
  text : String
  citations : List CtxHit
deriving DecidableEq, Repr

/-- The only orchestrator-level failure: `HTTPException(status_code=400)`,
the spec's `InvalidRequest`. -/
inductive ChatError where
  | invalidRequest (detail : String)
deriving DecidableEq, Repr

/-- The `chat` endpoint handler (`chat.py` lines 152-182).  The Retriever
(`vector_search`) is the parameter `searchFn`; the generation capability
is the flag/oracle pair passed on to `llm_answer`. -/
def chat (searchFn : String → ℤ → List CtxHit) (configured : Bool)
    (gen : List PayloadMsg → ℚ → String) (req : ChatRequest) :
    Except ChatError ChatResponse :=
  if req.messages = [] then .error (.invalidRequest "No messages provided.")
  else
    let question := last_user_message req.messages
    if pyStrip question = "" then .error (.invalidRequest "Empty question.")
    else
      let top_k := effective_top_k req.top_k
      let hits := searchFn question top_k
      let context_block := build_context hits
      let answer_text := llm_answer configured gen question context_block
        req.messages (effective_temperature req.temperature)
      .ok ⟨answer_text, hits⟩

end Enginuity

namespace Enginuity

/-! ## Claim theorems (grow below) -/

/-- C1: with no generation capability configured, `answer` returns exactly
the fixed apology string when the context block is empty, and otherwise a
fixed preamble followed verbatim by the context block, so the result
contains the context block verbatim (here: as a suffix). -/
theorem fallback_correctness (gen : List PayloadMsg → ℚ → String)
    (question context_block : String) (history : List ChatMessage) (temperature : ℚ) :
    (context_block = "" →
      llm_answer false gen question context_block history temperature = APOLOGY) ∧
    (context_block ≠ "" →
      llm_answer false gen question context_block history temperature
        = FALLBACK_PREAMBLE ++ context_block ∧
      ∃ p, llm_answer false gen question context_block history temperature
        = p ++ context_block) := by
  constructor
  · intro h
    subst h
    rfl
  · intro h
    constructor
    · simp [llm_answer, h]
    · exact ⟨FALLBACK_PREAMBLE, by simp [llm_answer, h]⟩

/-- C1 witness: the fallback at concrete inputs. -/
theorem fallback_correctness_witness :
    Enginuity.llm_answer false (fun _ _ => "") "q" "ctx" [] 0.2
      = Enginuity.FALLBACK_PREAMBLE ++ "ctx" := by
  have h := fallback_correctness (fun _ _ => "") "q" "ctx" [] 0.2
  exact (h.2 (by decide)).1

/-- C2 (amended): the orchestrator fails with `InvalidRequest` if and only
if `messages` is empty or the most recent user-role message (scanning
backwards; empty when there is none) has empty trimmed content — the
check is on the last user message only, not on all user messages. -/
theorem chat_invalid_request_amended (searchFn : String → ℤ → List CtxHit)
    (configured : Bool) (gen : List PayloadMsg → ℚ → String) (req : ChatRequest) :
    (∃ d, chat searchFn configured gen req = .error (.invalidRequest d)) ↔
    (req.messages = [] ∨ pyStrip (last_user_message req.messages) = "") := by
  unfold chat
  by_cases h1 : req.messages = []
  · simp [h1]
  · by_cases h2 : pyStrip (last_user_message req.messages) = ""
    · simp [h1, h2]
    · simp [h1, h2]

/-- C2 witness: the claim's two concrete instances — an empty message
list and an assistant-only message list are both rejected. -/
theorem chat_invalid_request_amended_witness :
    (∃ d, chat (fun _ _ => []) false (fun _ _ => "")
        ⟨[], .intVal 5, some (1/5)⟩ = .error (.invalidRequest d)) ∧
    (∃ d, chat (fun _ _ => []) false (fun _ _ => "")
        ⟨[⟨"assistant", .str "hi"⟩], .intVal 5, some (1/5)⟩
      = .error (.invalidRequest d)) :=
  ⟨(chat_invalid_request_amended _ _ _ _).mpr (Or.inl rfl),
   (chat_invalid_request_amended _ _ _ _).mpr (Or.inr rfl)⟩

/-- C2 counterexample: a request whose last user message is whitespace but
which contains an earlier user message with non-empty trimmed content is
rejected with `InvalidRequest`, refuting the claimed `if and only if`
(the claim would require this request to be accepted). -/
theorem chat_invalid_request_counterexample :
    chat (fun _ _ => []) false (fun _ _ => "")
      ⟨[⟨"user", .str "hello"⟩, ⟨"user", .str "   "⟩], .noneVal, none⟩
      = .error (.invalidRequest "Empty question.") ∧
    ([⟨"user", Content.str "hello"⟩, ⟨"user", Content.str "   "⟩] : List ChatMessage).any
      (fun m => m.role == "user" && pyStrip (extract_content m.content) != "") = true := by
  exact ⟨rfl, rfl⟩

/-- C9 (amended): `effective_top_k` equals `min (max n 1) 15` for every
nonzero integer `n`, but an explicit `0` is falsy in `req.top_k or 5` and
defaults to `5` (not to the clamp value `1`); `None` and garbage input
default to `5`; the result always lies in `[1, 15]`; and the orchestrator
passes exactly this value to the Retriever. -/
theorem top_k_clamp_amended :
    (∀ n : ℤ, n ≠ 0 → effective_top_k (.intVal n) = min (max n 1) 15) ∧
    effective_top_k (.intVal 0) = 5 ∧
    effective_top_k .noneVal = 5 ∧
    effective_top_k .garbage = 5 ∧
    (∀ t, 1 ≤ effective_top_k t ∧ effective_top_k t ≤ 15) ∧
    (∀ (searchFn : String → ℤ → List CtxHit) (configured : Bool)
      (gen : List PayloadMsg → ℚ → String) (req : ChatRequest) (resp : ChatResponse),
      chat searchFn configured gen req = .ok resp →
      resp.citations
        = searchFn (last_user_message req.messages) (effective_top_k req.top_k)) := by
  refine ⟨?_, by decide, by decide, by decide, ?_, ?_⟩
  · intro n hn
    simp only [effective_top_k, if_neg hn]
    omega
  · intro t
    cases t with
    | intVal n =>
      by_cases hn : n = 0 <;> simp only [effective_top_k, hn, if_pos, if_neg] <;> omega
    | noneVal => exact ⟨by decide, by decide⟩
    | garbage => exact ⟨by decide, by decide⟩
  · intro searchFn configured gen req resp h
    unfold chat at h
    by_cases h1 : req.messages = []
    · simp [h1] at h
    · rw [if_neg h1] at h
      by_cases h2 : pyStrip (last_user_message req.messages) = ""
      · simp [h2] at h
      · simp only [if_neg h2] at h
        injection h with h'
        subst h'
        rfl

/-- C9 witness: the amended clamp at a concrete nonzero input. -/
theorem top_k_clamp_witness :
    effective_top_k (.intVal 20) = min (max (20:ℤ) 1) 15 :=
  top_k_clamp_amended.1 20 (by decide)

/-- C9 counterexample: the claim says the effective value for `top_k = 0`
is `min (max 0 1) 15 = 1`, but the code sends `5` (Python `0 or 5`). -/
theorem top_k_zero_counterexample :
    effective_top_k (.intVal 0) = 5 ∧ min (max (0:ℤ) 1) 15 = 1 ∧ (5:ℤ) ≠ 1 := by
  decide

/-- C10: the generator temperature is `req.temperature or 0.2` under
Python truthiness: `None` and an explicit `0.0` both become `0.2`, any
nonzero value passes through, the effective temperature is never `0`, and
the orchestrator hands exactly this value (inside `llm_answer`) for every
accepted request. -/
theorem temperature_truthiness :
    effective_temperature none = 0.2 ∧
    effective_temperature (some 0) = 0.2 ∧
    (∀ x : ℚ, x ≠ 0 → effective_temperature (some x) = x) ∧
    (∀ t, effective_temperature t ≠ 0) ∧
    (∀ (searchFn : String → ℤ → List CtxHit) (configured : Bool)
      (gen : List PayloadMsg → ℚ → String) (req : ChatRequest) (resp : ChatResponse),
      chat searchFn configured gen req = .ok resp →
      resp.text = llm_answer configured gen (last_user_message req.messages)
        (build_context (searchFn (last_user_message req.messages) (effective_top_k req.top_k)))
        req.messages (effective_temperature req.temperature)) := by
  refine ⟨rfl, by simp [effective_temperature], ?_, ?_, ?_⟩
  · intro x hx
    simp [effective_temperature, hx]
  · intro t
    cases t with
    | none =>
      show (0.2 : ℚ) ≠ 0
      norm_num
    | some x =>
      by_cases hx : x = 0
      · simp only [effective_temperature, hx, if_pos]
        norm_num
      · simp only [effective_temperature, if_neg hx]
        exact hx
  · intro searchFn configured gen req resp h
    unfold chat at h
    by_cases h1 : req.messages = []
    · simp [h1] at h
    · rw [if_neg h1] at h
      by_cases h2 : pyStrip (last_user_message req.messages) = ""
      · simp [h2] at h
      · simp only [if_neg h2] at h
        injection h with h'
        subst h'
        rfl

/-- C10 witness: a concrete nonzero temperature passes through. -/
theorem temperature_truthiness_witness :
    effective_temperature (some (3/10)) = 3/10 :=
  temperature_truthiness.2.2.1 (3/10) (by norm_num)

/-- C7: with the generation capability configured, the composed request
is, in order: the fixed system policy, a system message embedding the
context block verbatim, the last 8 history messages (original relative
order, any role, reduced to role and content-as-string), and a final user
message stating the question verbatim; when the history has at least 8
messages exactly 8 of them appear (older ones are dropped). -/
theorem history_trimming (question context_block : String) (history : List ChatMessage) :
    llm_request question context_block history
      = [("system", SYSTEM_PROMPT),
         ("system", "CONTEXT FROM NOTES:\n\n" ++ context_block)]
        ++ ((history.reverse.take 8).reverse).map (fun m => (m.role, extract_content m.content))
        ++ [("user", "Using ONLY the lecture context above, answer this question:\n\n" ++ question)] ∧
    (8 ≤ history.length → ((history.reverse.take 8).reverse).length = 8) := by
  constructor
  · have hr : history.drop (history.length - 8) = (history.reverse.take 8).reverse :=
      List.rtake_eq_reverse_take_reverse history 8
    simp only [llm_request, hr]
    rfl
  · intro h8
    simp only [List.length_reverse, List.length_take]
    omega

/-- C7 witness: a 20-message history is trimmed to exactly 8 payload
history entries. -/
theorem history_trimming_witness :
    ((((List.range 20).map
        (fun i => (⟨"user", Content.str (toString i)⟩ : ChatMessage))).reverse.take 8).reverse).length
      = 8 :=
  (history_trimming "q" "ctx"
    ((List.range 20).map (fun i => ⟨"user", Content.str (toString i)⟩))).2 (by decide)

/-- C5: every hit's snippet is at most 281 characters; it is the first
280 characters of the document plus the ellipsis marker exactly when the
document exceeds 280 characters, and the whole document otherwise. -/
theorem snippet_bound (res : QueryResult) :
    ∀ hit, hit ∈ processQuery res →
      hit.snippet.length ≤ 281 ∧
      (280 < hit.document.length → hit.snippet = hit.document.take 280 ++ ['…']) ∧
      (hit.document.length ≤ 280 → hit.snippet = hit.document) ∧
      hit.snippet.take 280 = hit.document.take 280 := by
  intro hit hmem
  obtain ⟨t, _, rfl⟩ := List.mem_map.mp hmem
  show (mkSnippet t.1).length ≤ 281 ∧
    (280 < t.1.length → mkSnippet t.1 = t.1.take 280 ++ ['…']) ∧
    (t.1.length ≤ 280 → mkSnippet t.1 = t.1) ∧
    (mkSnippet t.1).take 280 = t.1.take 280
  by_cases h : 280 < t.1.length
  · have htk : (t.1.take 280).length = 280 := by
      simp [List.length_take]
      omega
    refine ⟨?_, fun _ => by simp [mkSnippet, h], fun hle => absurd h (by omega), ?_⟩
    · simp [mkSnippet, h, List.length_take]
    · simp only [mkSnippet, if_pos h, List.take_append_eq_append_take, htk]
      simp [List.take_of_length_le (le_of_eq htk)]
  · have hle : t.1.length ≤ 280 := by omega
    have hall : t.1.take 280 = t.1 := List.take_of_length_le hle
    refine ⟨?_, fun hlt => absurd hlt h, fun _ => ?_, ?_⟩
    · simp only [mkSnippet, if_neg h, List.append_nil, hall]
      omega
    · simp only [mkSnippet, if_neg h, List.append_nil, hall]
    · simp only [mkSnippet, if_neg h, List.append_nil, hall]

/-- C5 witness: a short document's snippet is the document itself. -/
theorem snippet_bound_witness :
    (mkHit ['a', 'b'] ⟨none, none⟩ none).snippet.length ≤ 281 ∧
    (mkHit ['a', 'b'] ⟨none, none⟩ none).snippet
      = (mkHit ['a', 'b'] ⟨none, none⟩ none).document := by
  have h := snippet_bound ⟨some [['a', 'b']], [⟨none, none⟩], none⟩
    (mkHit ['a', 'b'] ⟨none, none⟩ none) (by decide)
  exact ⟨h.1, h.2.2.1 (by decide)⟩

/-- C4 (amended): each hit's score is `1.0 - distance` when the store
reports a distance for it and `null` otherwise; such a score lies in
`[0, 1]` only under the additional assumption that the reported distance
lies in `[0, 1]` — the code does not guard the range. -/
theorem score_conversion_amended (res : QueryResult) :
    (processQuery res).map (fun h => h.score)
      = (queryTriples res).map (fun t => t.2.2.map (fun d => 1 - d)) ∧
    (∀ hit, hit ∈ processQuery res → ∀ s, hit.score = some s →
      ∃ d, s = 1 - d ∧ (0 ≤ d ∧ d ≤ 1 → 0 ≤ s ∧ s ≤ 1)) := by
  constructor
  · simp only [processQuery, List.map_map]
    rfl
  · intro hit hmem s hs
    obtain ⟨t, _, rfl⟩ := List.mem_map.mp hmem
    obtain ⟨d, _, hd⟩ := Option.map_eq_some'.mp hs
    refine ⟨d, hd.symm, fun hb => ?_⟩
    constructor <;> [skip; skip] <;> rw [← hd] <;> [linarith [hb.2]; linarith [hb.1]]

/-- C4 witness: for a reported distance `1/4` the score is `3/4 ∈ [0,1]`. -/
theorem score_conversion_witness :
    ∃ d : ℚ, (3/4 : ℚ) = 1 - d ∧ (0 ≤ d ∧ d ≤ 1 → 0 ≤ (3/4 : ℚ) ∧ (3/4 : ℚ) ≤ 1) :=
  (score_conversion_amended ⟨some [['a']], [⟨none, none⟩], some [some (1/4)]⟩).2
    (mkHit ['a'] ⟨none, none⟩ (some (1/4)))
    (by simp [processQuery, queryTriples, zip3])
    (3/4) (by norm_num [mkHit])

/-- C6: assuming the store contract (distances come back pairwise
non-decreasing), any earlier hit's non-null score is ≥ any later hit's
non-null score; and the hits keep the store's native order — the result
list is the zipped store triples mapped in place, never re-sorted. -/
theorem score_monotonicity (res : QueryResult)
    (hsorted : ((queryTriples res).map (fun t => t.2.2)).Pairwise
      (fun a b => distLeB a b = true)) :
    (∀ (i j : ℕ) (hi : i < (processQuery res).length)
      (hj : j < (processQuery res).length), i < j →
      ∀ si sj, ((processQuery res).get ⟨i, hi⟩).score = some si →
        ((processQuery res).get ⟨j, hj⟩).score = some sj → sj ≤ si) ∧
    (processQuery res).map (fun h => h.document)
      = (queryTriples res).map (fun t => t.1) := by
  constructor
  · intro i j hi hj hij si sj hsi hsj
    have hi' : i < (queryTriples res).length := by
      simpa [processQuery] using hi
    have hj' : j < (queryTriples res).length := by
      simpa [processQuery] using hj
    rw [List.get_eq_getElem] at hsi hsj
    simp only [processQuery, List.getElem_map, mkHit] at hsi hsj
    obtain ⟨di, hdi, hsi'⟩ := Option.map_eq_some'.mp hsi
    obtain ⟨dj, hdj, hsj'⟩ := Option.map_eq_some'.mp hsj
    have hp := List.pairwise_iff_get.mp hsorted
      ⟨i, by simpa using hi'⟩ ⟨j, by simpa using hj'⟩ hij
    rw [List.get_eq_getElem, List.get_eq_getElem] at hp
    simp only [List.getElem_map] at hp
    rw [hdi, hdj] at hp
    have hle : di ≤ dj := by simpa [distLeB] using hp
    subst hsi' hsj'
    linarith
  · simp only [processQuery, List.map_map]
    rfl

/-- C6 witness: two hits with store distances `1/10 ≤ 1/5` give scores
`9/10 ≥ 4/5`. -/
theorem score_monotonicity_witness : ((4:ℚ)/5) ≤ 9/10 := by
  have h := (score_monotonicity
    ⟨some [['a'], ['b']],
     [⟨some "L", some "s1"⟩, ⟨some "L", some "s2"⟩],
     some [some (1/10), some (1/5)]⟩
    (by simp [queryTriples, zip3, List.pairwise_cons, distLeB]
        norm_num)).1
    0 1 (by norm_num [processQuery, queryTriples, zip3])
    (by norm_num [processQuery, queryTriples, zip3]) (by norm_num)
    (9/10) (4/5)
    (by simp [processQuery, queryTriples, zip3, mkHit]
        norm_num)
    (by simp [processQuery, queryTriples, zip3, mkHit]
        norm_num)
  exact h

/-- Helper: a 1-based `enumerate`-then-map equals a `zipWith` over
`List.range`. -/
theorem map_enumFrom_eq_zipWith_range {α β : Type} (g : ℕ → α → β) (n : ℕ) (l : List α) :
    (List.enumFrom n l).map (fun p => g p.1 p.2)
      = List.zipWith (fun i a => g (n + i) a) (List.range l.length) l := by
  induction l generalizing n with
  | nil => rfl
  | cons a t ih =>
    have hidx : ∀ i, n + 1 + i = n + (i + 1) := fun i => by omega
    simp only [List.enumFrom_cons, List.map_cons, List.length_cons,
      List.range_succ_eq_map, List.zipWith_cons_cons, List.zipWith_map_left,
      ih (n + 1), hidx, Nat.add_zero, Nat.succ_eq_add_one]

/-- C8 (amended): `build_context` of the empty hit list is the empty
string; otherwise each hit contributes, in the given order, a header line
`[<section_id or match-N> | <source or Notes>[ | score=<2 dp>]]`, a
newline, a body, and a trailing newline, blocks joined by a blank line —
where the body is the hit's document, falling back to its snippet when
the document is absent OR EMPTY (Python truthiness of
`h.get("document") or h.get("snippet") or ""`), and to the empty string
when both are absent or empty. -/
theorem build_context_format_amended :
    build_context [] = "" ∧
    ∀ hits : List CtxHit, hits ≠ [] →
      build_context hits
        = String.intercalate "\n\n"
          (List.zipWith (fun i h =>
              "[" ++ h.section_id.getD ("match-" ++ toString (i + 1)) ++ " | "
                ++ h.source.getD "Notes"
                ++ (h.score.elim "" (fun sc => " | score=" ++ fmt2 sc)) ++ "]"
                ++ "\n" ++ pyOrStr h.document (pyOrStr h.snippet "") ++ "\n")
            (List.range hits.length) hits) := by
  refine ⟨rfl, ?_⟩
  intro hits hne
  have hE : hits.isEmpty = false := by
    cases hits
    · exact absurd rfl hne
    · rfl
  have hfun : (fun i a => context_part (1 + i) a)
      = (fun i (h : CtxHit) =>
          "[" ++ h.section_id.getD ("match-" ++ toString (i + 1)) ++ " | "
            ++ h.source.getD "Notes"
            ++ (h.score.elim "" (fun sc => " | score=" ++ fmt2 sc)) ++ "]"
            ++ "\n" ++ pyOrStr h.document (pyOrStr h.snippet "") ++ "\n") := by
    funext i h
    rw [Nat.add_comm]
    obtain ⟨sid, src, sc, doc, snip⟩ := h
    cases sc <;> rfl
  simp only [build_context, hE, Bool.false_eq_true, if_false]
  rw [map_enumFrom_eq_zipWith_range context_part 1 hits, hfun]

/-- C8 witness: the amended format at a one-hit input. -/
theorem build_context_format_witness :
    build_context [⟨some "sec-1", some "Signals 101", none, some "doc", none⟩]
      = String.intercalate "\n\n"
        (List.zipWith (fun i (h : CtxHit) =>
            "[" ++ h.section_id.getD ("match-" ++ toString (i + 1)) ++ " | "
              ++ h.source.getD "Notes"
              ++ (h.score.elim "" (fun sc => " | score=" ++ fmt2 sc)) ++ "]"
              ++ "\n" ++ pyOrStr h.document (pyOrStr h.snippet "") ++ "\n")
          (List.range 1) [⟨some "sec-1", some "Signals 101", none, some "doc", none⟩]) :=
  build_context_format_amended.2
    [⟨some "sec-1", some "Signals 101", none, some "doc", none⟩] (by decide)

/-- C8 counterexample: a hit with a present-but-empty `document` and a
non-empty `snippet` renders the snippet, not the (empty) document the
claim's fallback rule predicts. -/
theorem build_context_document_counterexample :
    build_context [⟨none, none, none, some "", some "abc"⟩]
      = "[match-1 | Notes]\nabc\n" ∧
    ("[match-1 | Notes]\nabc\n" : String) ≠ "[match-1 | Notes]\n\n" := by
  constructor
  · rfl
  · decide

/-- Helper: replacing the entries that carry `e.id` does not change the
entries filtered at a different id. -/
theorem filter_map_replace (e : IndexEntry) (a : String) (ha : a ≠ e.id)
    (st : List IndexEntry) :
    (st.map (fun x => if x.id == e.id then e else x)).filter (fun x => x.id == a)
      = st.filter (fun x => x.id == a) := by
  induction st with
  | nil => rfl
  | cons b t ih =>
    rw [List.map_cons, List.filter_cons, List.filter_cons]
    by_cases hb : b.id = e.id
    · have h1 : (b.id == e.id) = true := beq_iff_eq.mpr hb
      have h2 : (e.id == a) = true → False := fun hc =>
        Ne.symm ha (beq_iff_eq.mp hc)
      have h3 : (b.id == a) = true → False := fun hc =>
        (by rw [hb]; exact Ne.symm ha : ¬b.id = a) (beq_iff_eq.mp hc)
      rw [if_pos h1, if_neg h2, if_neg h3]
      exact ih
    · have h1 : ¬(b.id == e.id) = true := fun hc => hb (beq_iff_eq.mp hc)
      rw [if_neg h1, ih]

/-- Helper: a single upsert leaves the entries at any other id untouched. -/
theorem upsertOne_filter_ne (st : List IndexEntry) (e : IndexEntry) (a : String)
    (ha : a ≠ e.id) :
    (upsertOne st e).filter (fun x => x.id == a) = st.filter (fun x => x.id == a) := by
  unfold upsertOne
  by_cases hany : st.any (fun x => x.id == e.id)
  · simp only [hany, if_true]
    exact filter_map_replace e a ha st
  · have h2 : (e.id == a) = false := beq_eq_false_iff_ne.mpr (Ne.symm ha)
    simp [hany, List.filter_append, h2]

/-- Helper: a batch upsert leaves the entries at an id that is not being
upserted untouched. -/
theorem upsertMany_filter_ne (es : List IndexEntry) (a : String) :
    ∀ st : List IndexEntry, (∀ e ∈ es, a ≠ e.id) →
      (upsertMany st es).filter (fun x => x.id == a) = st.filter (fun x => x.id == a) := by
  induction es with
  | nil => intro st _; rfl
  | cons f t ih =>
    intro st ha
    have : upsertMany st (f :: t) = upsertMany (upsertOne st f) t := rfl
    rw [this, ih (upsertOne st f) (fun e he => ha e (List.mem_cons_of_mem f he)),
      upsertOne_filter_ne st f a (ha f (List.mem_cons_self f t))]

/-- Helper: after replacing the (unique, by `Nodup`) entry carrying
`e.id`, filtering at `e.id` yields exactly `[e]`. -/
theorem filter_map_replace_self (e : IndexEntry) :
    ∀ st : List IndexEntry, (st.map (fun x => x.id)).Nodup →
      st.any (fun x => x.id == e.id) = true →
      (st.map (fun x => if x.id == e.id then e else x)).filter (fun x => x.id == e.id)
        = [e] := by
  intro st
  induction st with
  | nil => intro _ hany; cases hany
  | cons b t ih =>
    intro hnd hany
    rw [List.map_cons, List.filter_cons]
    by_cases hb : b.id = e.id
    · have h1 : (b.id == e.id) = true := beq_iff_eq.mpr hb
      have hnotin : ∀ x ∈ t, ¬x.id = e.id := by
        intro x hx hxe
        have : b.id ∈ t.map (fun y => y.id) := by
          rw [hb, ← hxe]
          exact List.mem_map_of_mem _ hx
        exact (List.nodup_cons.mp hnd).1 this
      have htail : (t.map (fun x => if x.id == e.id then e else x)).filter
          (fun x => x.id == e.id) = [] := by
        rw [List.filter_eq_nil_iff]
        intro y hy
        obtain ⟨x, hx, rfl⟩ := List.mem_map.mp hy
        have h2 : ¬(x.id == e.id) = true := fun hc => hnotin x hx (beq_iff_eq.mp hc)
        rw [if_neg h2]
        exact h2
      have hself : (e.id == e.id) = true := beq_iff_eq.mpr rfl
      rw [if_pos h1, if_pos hself, htail]
    · have h1 : ¬(b.id == e.id) = true := fun hc => hb (beq_iff_eq.mp hc)
      have hany' : t.any (fun x => x.id == e.id) = true := by
        rcases List.any_eq_true.mp hany with ⟨x, hx, hxe⟩
        rcases List.mem_cons.mp hx with rfl | hxt
        · exact absurd (beq_iff_eq.mp hxe) hb
        · exact List.any_eq_true.mpr ⟨x, hxt, hxe⟩
      rw [if_neg h1, if_neg h1]
      exact ih (List.nodup_cons.mp hnd).2 hany'

/-- Helper: one upsert, on a store with `Nodup` ids, leaves exactly the
entry `[e]` at `e.id`. -/
theorem upsertOne_filter_self (st : List IndexEntry) (e : IndexEntry)
    (hnd : (st.map (fun x => x.id)).Nodup) :
    (upsertOne st e).filter (fun x => x.id == e.id) = [e] := by
  unfold upsertOne
  by_cases hany : st.any (fun x => x.id == e.id)
  · simp only [hany, if_true]
    exact filter_map_replace_self e st hnd hany
  · have hnone : st.filter (fun x => x.id == e.id) = [] := by
      rw [List.filter_eq_nil_iff]
      intro x hx hxe
      exact hany (List.any_eq_true.mpr ⟨x, hx, hxe⟩)
    simp [hany, List.filter_append, hnone]

/-- Helper: upsert preserves the `Nodup`-ids store invariant. -/
theorem upsertOne_ids_nodup (st : List IndexEntry) (e : IndexEntry)
    (hnd : (st.map (fun x => x.id)).Nodup) :
    ((upsertOne st e).map (fun x => x.id)).Nodup := by
  unfold upsertOne
  by_cases hany : st.any (fun x => x.id == e.id)
  · simp only [hany, if_true]
    have hids : (st.map (fun x => if x.id == e.id then e else x)).map (fun x => x.id)
        = st.map (fun x => x.id) := by
      rw [List.map_map]
      apply List.map_congr_left
      intro x _
      by_cases hx : x.id = e.id
      · simp [Function.comp, beq_iff_eq.mpr hx, hx]
      · simp [Function.comp, beq_eq_false_iff_ne.mpr hx]
    rw [hids]
    exact hnd
  · have hnotin : e.id ∉ st.map (fun x => x.id) := by
      intro hmem
      obtain ⟨x, hx, hxe⟩ := List.mem_map.mp hmem
      exact hany (List.any_eq_true.mpr ⟨x, hx, beq_iff_eq.mpr hxe⟩)
    rw [if_neg hany, List.map_append, List.map_cons, List.map_nil, List.nodup_append]
    refine ⟨hnd, List.nodup_singleton _, ?_⟩
    intro a ha h1
    rw [List.mem_singleton] at h1
    subst h1
    exact hnotin ha

/-- Helper: batch upsert preserves the `Nodup`-ids store invariant. -/
theorem upsertMany_ids_nodup (es : List IndexEntry) :
    ∀ st : List IndexEntry, (st.map (fun x => x.id)).Nodup →
      ((upsertMany st es).map (fun x => x.id)).Nodup := by
  induction es with
  | nil => intro st h; exact h
  | cons f t ih => intro st h; exact ih (upsertOne st f) (upsertOne_ids_nodup st f h)

/-- Helper: after a batch upsert of entries with pairwise distinct ids
into a `Nodup`-ids store, filtering at any upserted id yields exactly
that entry. -/
theorem upsertMany_filter_self (es : List IndexEntry) :
    ∀ st : List IndexEntry, (st.map (fun x => x.id)).Nodup →
      (es.map (fun x => x.id)).Nodup →
      ∀ e ∈ es, (upsertMany st es).filter (fun x => x.id == e.id) = [e] := by
  induction es with
  | nil => intro st _ _ e he; cases he
  | cons f t ih =>
    intro st hst hes e he
    have hstep : upsertMany st (f :: t) = upsertMany (upsertOne st f) t := rfl
    rcases List.mem_cons.mp he with rfl | het
    · rw [hstep, upsertMany_filter_ne t e.id (upsertOne st e) ?hne,
        upsertOne_filter_self st e hst]
      case hne =>
        intro x hx hxe
        have : e.id ∈ t.map (fun y => y.id) := by
          rw [hxe]; exact List.mem_map_of_mem _ hx
        exact (List.nodup_cons.mp hes).1 this
    · rw [hstep]
      exact ih (upsertOne st f) (upsertOne_ids_nodup st f hst)
        (List.nodup_cons.mp hes).2 e het

/-- Helper: upserting entries that are each already the unique occupant
of their id is the identity on the store. -/
theorem upsertMany_identity (es : List IndexEntry) :
    ∀ st : List IndexEntry,
      (∀ e ∈ es, st.filter (fun x => x.id == e.id) = [e]) →
      upsertMany st es = st := by
  induction es with
  | nil => intro st _; rfl
  | cons f t ih =>
    intro st hin
    have hf := hin f (List.mem_cons_self f t)
    have hfmem : f ∈ st := by
      have : f ∈ st.filter (fun x => x.id == f.id) := by
        rw [hf]; exact List.mem_singleton_self f
      exact (List.mem_filter.mp this).1
    have hany : st.any (fun x => x.id == f.id) = true :=
      List.any_eq_true.mpr ⟨f, hfmem, beq_iff_eq.mpr rfl⟩
    have hid : upsertOne st f = st := by
      unfold upsertOne
      rw [if_pos hany]
      have : ∀ x ∈ st, (if x.id == f.id then f else x) = x := by
        intro x hx
        by_cases hxe : x.id = f.id
        · have : x ∈ st.filter (fun y => y.id == f.id) :=
            List.mem_filter.mpr ⟨hx, beq_iff_eq.mpr hxe⟩
          rw [hf] at this
          simp [beq_iff_eq.mpr hxe, (List.mem_singleton.mp this).symm]
        · simp [beq_eq_false_iff_ne.mpr hxe]
      calc st.map (fun x => if x.id == f.id then f else x)
          = st.map id := List.map_congr_left (fun x hx => this x hx)
        _ = st := List.map_id st
    have hstep : upsertMany st (f :: t) = upsertMany (upsertOne st f) t := rfl
    rw [hstep, hid]
    exact ih st (fun e he => hin e (List.mem_cons_of_mem f he))

/-- C3: indexing the same `(lecture_title, sections)` twice (section ids
pairwise distinct, store ids unique — the store invariant) is idempotent:
the second call returns the store of the first call unchanged, there is
exactly one entry per section id whose document and metadata equal the
(second) call's input, the entry count does not grow between the calls,
and entries at all other ids are exactly the original store's. -/
theorem index_idempotent (L : String) (sections : List Section) (store : List IndexEntry)
    (hstore : (store.map (fun e => e.id)).Nodup)
    (hsec : (sections.map (fun s => s.id)).Nodup) :
    index_sections L sections (index_sections L sections store)
      = index_sections L sections store ∧
    (∀ s ∈ sections,
      (index_sections L sections (index_sections L sections store)).filter
        (fun e => e.id == s.id) = [section_entry L s]) ∧
    (index_sections L sections (index_sections L sections store)).length
      = (index_sections L sections store).length ∧
    (∀ a, a ∉ sections.map (fun s => s.id) →
      (index_sections L sections (index_sections L sections store)).filter
        (fun e => e.id == a) = store.filter (fun e => e.id == a)) := by
  have hesids : ((sections.map (section_entry L)).map (fun e => e.id))
      = sections.map (fun s => s.id) := by
    rw [List.map_map]
    rfl
  have hes : ((sections.map (section_entry L)).map (fun e => e.id)).Nodup := by
    rw [hesids]; exact hsec
  have hst1 : ((index_sections L sections store).map (fun e => e.id)).Nodup :=
    upsertMany_ids_nodup (sections.map (section_entry L)) store hstore
  have hself : ∀ e ∈ sections.map (section_entry L),
      (index_sections L sections store).filter (fun x => x.id == e.id) = [e] :=
    upsertMany_filter_self (sections.map (section_entry L)) store hstore hes
  have hidem : index_sections L sections (index_sections L sections store)
      = index_sections L sections store :=
    upsertMany_identity (sections.map (section_entry L))
      (index_sections L sections store) hself
  refine ⟨hidem, ?_, by rw [hidem], ?_⟩
  · intro s hs
    rw [hidem]
    exact hself (section_entry L s) (List.mem_map_of_mem (section_entry L) hs)
  · intro a ha
    rw [hidem]
    apply upsertMany_filter_ne
    intro e he hEq
    obtain ⟨s, hs, rfl⟩ := List.mem_map.mp he
    apply ha
    rw [hEq]
    exact List.mem_map_of_mem (fun s => s.id) hs

/-- C3 witness: indexing two concrete sections twice into an empty store. -/
theorem index_idempotent_witness :
    index_sections "Signals 101"
        [⟨"sec-1", "Laplace"⟩, ⟨"sec-2", "Stability"⟩]
        (index_sections "Signals 101"
          [⟨"sec-1", "Laplace"⟩, ⟨"sec-2", "Stability"⟩] [])
      = index_sections "Signals 101"
          [⟨"sec-1", "Laplace"⟩, ⟨"sec-2", "Stability"⟩] [] :=
  (index_idempotent "Signals 101"
    [⟨"sec-1", "Laplace"⟩, ⟨"sec-2", "Stability"⟩] []
    (by decide) (by decide)).1

/-- C4 counterexample: the claim asserts every non-null score lies in
`[0, 1]`, but a store distance of `2` (possible for an unbounded metric)
yields score `-1`. -/
theorem score_range_counterexample :
    (processQuery ⟨some [['a']], [⟨some "L", some "s1"⟩], some [some 2]⟩).map (fun h => h.score)
      = [some (-1 : ℚ)] ∧ ¬(0 ≤ (-1 : ℚ)) := by
  constructor
  · norm_num [processQuery, queryTriples, zip3, mkHit]
  · norm_num

end Enginuity
